import Mathlib

/-!
Shallow embedding of the embedding-service cache and orchestration layer
(`src/index.js`): cache-key derivation, the bounded FIFO-ish cache built on an
insertion-ordered map, the single and batch embed handlers, and the hit/request
counters.  Vectors are modelled as lists of integers (bit-identical equality);
the Model Gateway is an explicit function argument `gw : String → Except String Vec`
(deterministic, may fail).  JavaScript `Map` is modelled as an insertion-ordered
association list; `Map.set` updates in place, `Map.delete` removes the entry,
iteration order is insertion order.
-/

/-- Embedding vectors; equality is bit-identical equality. -/
abbrev Vec := List Int

/-- The in-memory cache: insertion-ordered key to vector map (JS `Map`). -/
abbrev CacheMap := List (String × Vec)

/-- `const MAX_CACHE_SIZE = 5000`. -/
def MAX_CACHE_SIZE : Nat := 5000

/-- `getCacheKey(text)`: `text.slice(0, 300)` — the first 300 characters of the
text (modelled on the character list underlying the string). -/
def getCacheKey (text : String) : String := String.mk (text.data.take 300)

/-- `Map.has(k)` on the insertion-ordered association list. -/
def mapHas : CacheMap → String → Bool
  | [], _ => false
  | e :: t, k => if e.1 = k then true else mapHas t k

/-- `Map.get(k)`: value of the entry with key `k`, if present. -/
def mapGet : CacheMap → String → Option Vec
  | [], _ => none
  | e :: t, k => if e.1 = k then some e.2 else mapGet t k

/-- `Map.set(k, v)`: update in place if present (position preserved), else append. -/
def mapSet : CacheMap → String → Vec → CacheMap
  | [], k, v => [(k, v)]
  | e :: t, k, v => if e.1 = k then (k, v) :: t else e :: mapSet t k v

/-- `Map.delete(k)`: remove the entry with key `k`. -/
def mapDelete : CacheMap → String → CacheMap
  | [], _ => []
  | e :: t, k => if e.1 = k then t else e :: mapDelete t k

/-- `cache.keys().next().value`: the oldest-inserted key. -/
def firstKey (m : CacheMap) : Option String := m.head?.map Prod.fst

/-- `cacheSet(key, value)`: if at capacity, read the first key and — only when that
key is truthy in JavaScript, i.e. a nonempty string — delete it; then `set`. -/
def cacheSet (m : CacheMap) (k : String) (v : Vec) : CacheMap :=
  mapSet
    (if MAX_CACHE_SIZE ≤ m.length then
      match firstKey m with
      | some fk => if fk = "" then m else mapDelete m fk
      | none => m
    else m) k v

/-- `putAll`: a sequence of `cacheSet` operations applied in order. -/
def putAll (m : CacheMap) (ps : List (String × Vec)) : CacheMap :=
  ps.foldl (fun acc p => cacheSet acc p.1 p.2) m

-- Concrete key family for capacity-level inputs: distinct nonempty keys

/-- The string of `i` copies of the character a; distinct for distinct `i`. -/
def natKey (i : Nat) : String := String.mk (List.replicate i 'a')

/-- A cache of `n` entries with keys `natKey 1, …, natKey n` in insertion order. -/
def fullCache (n : Nat) : CacheMap := (List.range n).map (fun i => (natKey (i + 1), []))

-- The orchestrator: process state, JS values at the service boundary, handlers

/-- Process-wide mutable state: the cache, the two statistics counters, and an
instrumentation counter `gwCalls` recording how many times the Model Gateway
(`embedder`) has been invoked. -/
structure St where
  cache : CacheMap
  requestCount : Nat
  cacheHits : Nat
  gwCalls : Nat
deriving DecidableEq

/-- `cacheGet(key)`: on a present key, increment the hit counter and return the
value; otherwise return null. -/
def cacheGet (s : St) (k : String) : Option Vec × St :=
  if mapHas s.cache k then
    (mapGet s.cache k, { s with cacheHits := s.cacheHits + 1 })
  else (none, s)

/-- `generateEmbedding(text)`: derive the cache key, consult the cache (counting a
hit), and on a miss invoke the gateway on the full text; a successful result is
stored under the key, a gateway failure leaves the cache untouched and propagates
the error message. -/
def generateEmbedding (gw : String → Except String Vec) (s : St) (text : String) :
    Except String Vec × St :=
  let cacheKey := getCacheKey text
  let r := cacheGet s cacheKey
  match r.1 with
  | some cached => (.ok cached, r.2)
  | none =>
    let s2 := { r.2 with gwCalls := r.2.gwCalls + 1 }
    match gw text with
    | .ok embedding => (.ok embedding, { s2 with cache := cacheSet s2.cache cacheKey embedding })
    | .error e => (.error e, s2)

/-- JavaScript values a request body field can hold, as far as the handlers
inspect them (numbers are modelled as integers). -/
inductive JVal where
  | undef
  | nullv
  | str (s : String)
  | num (n : Int)
  | boolean (b : Bool)
  | arr (elems : List JVal)

/-- JavaScript truthiness of a `JVal`: undefined, null, the empty string, zero
and false are falsy; every array is truthy. -/
def JVal.truthy : JVal → Bool
  | .undef => false
  | .nullv => false
  | .str s => !(s == "")
  | .num n => !(n == 0)
  | .boolean b => b
  | .arr _ => true

/-- Whether a `JVal` is a string (a non-string has no `slice` method, so calling
`slice` on it throws a TypeError). -/
def JVal.isStr : JVal → Bool
  | .str _ => true
  | _ => false

def JVal.asStr : JVal → Option String
  | .str s => some s
  | _ => none

/-- The message of the TypeError raised by `text.slice` on a non-string value. -/
def TYPE_ERROR_MSG : String := "text.slice is not a function"

/-- Outcome of the single-embed endpoint: 503 model-not-ready, 400 invalid input,
500 internal error with the underlying message, or the embedding with its
dimension count. -/
inductive EmbedResult where
  | notReady
  | invalidInput
  | internalError (msg : String)
  | ok (embedding : Vec) (dimensions : Nat)
deriving DecidableEq

/-- `POST /embed`: reject when the model is not loaded; reject with 400 when the
`text` field is falsy; a truthy non-string throws a TypeError at `text.slice`
(caught as a 500) before any counter is touched; otherwise count the request and
run `generateEmbedding`, mapping a failure to a 500 with the error message. -/
def postEmbed (ready : Bool) (gw : String → Except String Vec) (s : St) (text : JVal) :
    EmbedResult × St :=
  if ready = false then (.notReady, s)
  else if text.truthy = false then (.invalidInput, s)
  else
    match text with
    | .str t =>
      let s1 := { s with requestCount := s.requestCount + 1 }
      let r := generateEmbedding gw s1 t
      match r.1 with
      | .ok emb => (.ok emb emb.length, r.2)
      | .error e => (.internalError e, r.2)
    | _ => (.internalError TYPE_ERROR_MSG, s)

-- The batch endpoint.  Under Promise.all with the single-threaded event loop,
-- every element first runs the synchronous part of generateEmbedding in input
-- order (cache consultation; misses dispatch a gateway call), and only then do
-- the dispatched gateway results arrive (modelled in dispatch order): a
-- successful result is inserted into the cache, a failure contributes the
-- batch's error.  Promise.all rejects with the first failure in that order.

/-- Outcome of the synchronous cache-consultation pass for one batch element. -/
inductive Item where
  | hit (v : Vec)
  | miss (text : String) (key : String)

/-- The synchronous pass of `Promise.all(texts.map(generateEmbedding))`: in input
order, consult the cache (counting hits) and dispatch a gateway call for each
miss (counted in `gwCalls`). -/
def phaseA (s : St) : List String → List Item × St
  | [] => ([], s)
  | t :: ts =>
    let k := getCacheKey t
    let r := cacheGet s k
    match r.1 with
    | some v =>
      let rest := phaseA r.2 ts
      (Item.hit v :: rest.1, rest.2)
    | none =>
      let rest := phaseA { r.2 with gwCalls := r.2.gwCalls + 1 } ts
      (Item.miss t k :: rest.1, rest.2)

/-- The resolution pass: dispatched gateway results arrive in dispatch order; a
successful embedding is stored in the cache under the element's key, a failure
leaves the cache alone. -/
def phaseB (gw : String → Except String Vec) (s : St) : List Item → List (Except String Vec) × St
  | [] => ([], s)
  | Item.hit v :: rest =>
    let r := phaseB gw s rest
    (Except.ok v :: r.1, r.2)
  | Item.miss t k :: rest =>
    match gw t with
    | .ok v =>
      let r := phaseB gw { s with cache := cacheSet s.cache k v } rest
      (Except.ok v :: r.1, r.2)
    | .error e =>
      let r := phaseB gw s rest
      (Except.error e :: r.1, r.2)

/-- The message `Promise.all` rejects with: the first failure, if any. -/
def firstErrorMsg : List (Except String Vec) → Option String
  | [] => none
  | Except.ok _ :: rest => firstErrorMsg rest
  | Except.error e :: _ => some e

/-- The successfully resolved vectors, in order. -/
def okVecs : List (Except String Vec) → List Vec
  | [] => []
  | Except.ok v :: rest => v :: okVecs rest
  | Except.error _ :: rest => okVecs rest

/-- `embeddings[0]?.length || 0`. -/
def dimsOf (vs : List Vec) : Nat :=
  match vs.head? with
  | some v => v.length
  | none => 0

/-- Outcome of the batch endpoint. -/
inductive BatchResult where
  | notReady
  | invalidInput
  | internalError (msg : String)
  | ok (embeddings : List Vec) (count : Nat) (dimensions : Nat)
deriving DecidableEq

/-- The array case of the batch endpoint: the cached-count precheck calls
`getCacheKey` on every element, so any non-string element throws a TypeError
(caught as a 500) before the request counter is touched; otherwise the batch
length is added to the request counter and all elements fan out, the response
being the first failure or the assembled vectors with their count and the first
vector's dimension. -/
def runBatch (gw : String → Except String Vec) (s : St) (ts : List JVal) :
    BatchResult × St :=
  if ts.all JVal.isStr then
    let strs := ts.filterMap JVal.asStr
    let s1 := { s with requestCount := s.requestCount + strs.length }
    let a := phaseA s1 strs
    let b := phaseB gw a.2 a.1
    match firstErrorMsg b.1 with
    | some e => (BatchResult.internalError e, b.2)
    | none => (BatchResult.ok (okVecs b.1) (okVecs b.1).length (dimsOf (okVecs b.1)), b.2)
  else (BatchResult.internalError TYPE_ERROR_MSG, s)

/-- `POST /embed/batch`: reject when the model is not loaded; reject with 400 when
`texts` is not an array (an empty array is accepted); otherwise run the batch. -/
def postBatch (ready : Bool) (gw : String → Except String Vec) (s : St) (texts : JVal) :
    BatchResult × St :=
  if ready = false then (.notReady, s)
  else
    match texts with
    | JVal.arr ts => runBatch gw s ts
    | _ => (BatchResult.invalidInput, s)

-- Concrete gateways and states for witnesses

/-- A deterministic, always-succeeding gateway. -/
def gwConst : String → Except String Vec := fun _ => Except.ok [1]

/-- A gateway whose call always rejects. -/
def gwFail : String → Except String Vec := fun _ => Except.error "model error"

/-- The initial process state: empty cache, all counters zero. -/
def st0 : St := { cache := [], requestCount := 0, cacheHits := 0, gwCalls := 0 }

/-- A 301-character text: 300 copies of a followed by b. -/
def longB : String := String.mk (List.replicate 300 'a' ++ ['b'])

/-- A 301-character text: 300 copies of a followed by c. -/
def longC : String := String.mk (List.replicate 300 'a' ++ ['c'])

-- Basic map lemmas

theorem mapHas_false_iff (m : CacheMap) (k : String) :
    mapHas m k = false ↔ k ∉ m.map Prod.fst := by
  induction m with
  | nil => simp [mapHas]
  | cons e t ih =>
    by_cases h : e.1 = k
    · simp [mapHas, h]
    · rw [List.map_cons, List.mem_cons]
      simp only [mapHas, if_neg h]
      rw [ih]
      constructor
      · intro hn hor
        cases hor with
        | inl h1 => exact h h1.symm
        | inr h2 => exact hn h2
      · intro hn h2
        exact hn (Or.inr h2)

theorem mapHas_true_iff (m : CacheMap) (k : String) :
    mapHas m k = true ↔ k ∈ m.map Prod.fst := by
  cases hm : mapHas m k with
  | false =>
    simp only [Bool.false_eq_true, false_iff]
    exact (mapHas_false_iff m k).mp hm
  | true =>
    simp only [true_iff]
    by_contra hmem
    rw [← mapHas_false_iff] at hmem
    simp [hm] at hmem

theorem mapSet_absent (m : CacheMap) (k : String) (v : Vec) (h : mapHas m k = false) :
    mapSet m k v = m ++ [(k, v)] := by
  induction m with
  | nil => simp [mapSet]
  | cons e t ih =>
    by_cases he : e.1 = k
    · simp [mapHas, he] at h
    · simp [mapHas, he] at h
      simp [mapSet, he, ih h]

theorem mapSet_present_length (m : CacheMap) (k : String) (v : Vec)
    (h : mapHas m k = true) : (mapSet m k v).length = m.length := by
  induction m with
  | nil => simp [mapHas] at h
  | cons e t ih =>
    by_cases he : e.1 = k
    · simp [mapSet, he]
    · simp [mapHas, he] at h
      simp [mapSet, he, ih h]

theorem mapSet_present_keys (m : CacheMap) (k : String) (v : Vec)
    (h : mapHas m k = true) : (mapSet m k v).map Prod.fst = m.map Prod.fst := by
  induction m with
  | nil => simp [mapHas] at h
  | cons e t ih =>
    by_cases he : e.1 = k
    · simp [mapSet, he]
    · simp [mapHas, he] at h
      simp [mapSet, he, ih h]

theorem mapGet_mapSet_self (m : CacheMap) (k : String) (v : Vec) :
    mapGet (mapSet m k v) k = some v := by
  induction m with
  | nil => simp [mapSet, mapGet]
  | cons e t ih =>
    by_cases he : e.1 = k
    · simp [mapSet, mapGet, he]
    · simp [mapSet, mapGet, he, ih]

theorem mapGet_cacheSet_self (m : CacheMap) (k : String) (v : Vec) :
    mapGet (cacheSet m k v) k = some v := by
  unfold cacheSet
  exact mapGet_mapSet_self _ k v

theorem mapGet_isSome_of_mapHas (m : CacheMap) (k : String) (h : mapHas m k = true) :
    ∃ v, mapGet m k = some v := by
  induction m with
  | nil => simp [mapHas] at h
  | cons e t ih =>
    by_cases he : e.1 = k
    · exact ⟨e.2, by simp [mapGet, he]⟩
    · simp [mapHas, he] at h
      obtain ⟨v, hv⟩ := ih h
      exact ⟨v, by simp [mapGet, he, hv]⟩

theorem mapHas_of_mapGet_some (m : CacheMap) (k : String) (v : Vec)
    (h : mapGet m k = some v) : mapHas m k = true := by
  induction m with
  | nil => simp [mapGet] at h
  | cons e t ih =>
    by_cases he : e.1 = k
    · simp [mapHas, he]
    · simp [mapGet, he] at h
      simp [mapHas, he, ih h]

theorem mapHas_append (a b : CacheMap) (k : String) :
    mapHas (a ++ b) k = (mapHas a k || mapHas b k) := by
  induction a with
  | nil => simp [mapHas]
  | cons e t ih =>
    by_cases he : e.1 = k
    · simp [mapHas, he]
    · simp [mapHas, he, ih]

theorem mapDelete_length_of_has (m : CacheMap) (k : String) (h : mapHas m k = true) :
    (mapDelete m k).length + 1 = m.length := by
  induction m with
  | nil => simp [mapHas] at h
  | cons e t ih =>
    by_cases he : e.1 = k
    · simp [mapDelete, he]
    · simp [mapHas, he] at h
      simp [mapDelete, he, ih h]

theorem mapHas_mapDelete_ne (m : CacheMap) (k k' : String) (hne : k' ≠ k) :
    mapHas (mapDelete m k) k' = mapHas m k' := by
  have hne' : ¬ k = k' := fun h => hne h.symm
  induction m with
  | nil => simp [mapDelete]
  | cons e t ih =>
    by_cases he : e.1 = k
    · simp [mapDelete, mapHas, he, hne, hne', ih]
    · by_cases he' : e.1 = k'
      · simp [mapDelete, mapHas, he, he', hne, hne']
      · simp [mapDelete, mapHas, he, he', ih]

theorem natKey_length (i : Nat) : (natKey i).length = i := by
  simp [natKey, String.length]

theorem natKey_injective : Function.Injective natKey := by
  intro i j h
  have := congrArg String.length h
  simpa [natKey_length] using this

theorem natKey_succ_ne_empty (i : Nat) : natKey (i + 1) ≠ "" := by
  intro h
  have := congrArg String.length h
  simp [natKey_length] at this

theorem fullCache_length (n : Nat) : (fullCache n).length = n := by
  simp [fullCache]

theorem keys_fullCache (n : Nat) :
    (fullCache n).map Prod.fst = (List.range n).map (fun i => natKey (i + 1)) := by
  simp [fullCache, List.map_map]

theorem fullCache_keys_nodup (n : Nat) : ((fullCache n).map Prod.fst).Nodup := by
  rw [keys_fullCache]
  refine List.Nodup.map ?_ (List.nodup_range n)
  intro i j h
  have := natKey_injective h
  omega

theorem fullCache_succ (n : Nat) :
    fullCache (n + 1) = fullCache n ++ [(natKey (n + 1), [])] := by
  simp [fullCache, List.range_succ]

theorem fullCache_head (n : Nat) : firstKey (fullCache (n + 1)) = some (natKey 1) := by
  simp [fullCache, firstKey, List.range_succ_eq_map]

theorem natKey_not_mem_fullCache (n j : Nat) (h : n < j) :
    natKey j ∉ (fullCache n).map Prod.fst := by
  rw [keys_fullCache]
  intro hmem
  obtain ⟨i, hi, hk⟩ := List.mem_map.mp hmem
  have := natKey_injective hk
  have := List.mem_range.mp hi
  omega

theorem natKey_mem_fullCache (n j : Nat) (h1 : 1 ≤ j) (h2 : j ≤ n) :
    natKey j ∈ (fullCache n).map Prod.fst := by
  rw [keys_fullCache]
  exact List.mem_map.mpr ⟨j - 1, List.mem_range.mpr (by omega), by congr 1; omega⟩

theorem empty_not_mem_fullCache (n : Nat) : "" ∉ (fullCache n).map Prod.fst := by
  rw [keys_fullCache]
  intro h
  obtain ⟨i, _, hk⟩ := List.mem_map.mp h
  exact natKey_succ_ne_empty i hk

-- How cacheSet behaves below capacity, at capacity with a truthy first key,
-- and at capacity with the empty-string first key

theorem cacheSet_below_capacity (m : CacheMap) (k : String) (v : Vec)
    (hlen : m.length < MAX_CACHE_SIZE) : cacheSet m k v = mapSet m k v := by
  rw [cacheSet, if_neg (Nat.not_le.mpr hlen)]

theorem cacheSet_at_capacity (m : CacheMap) (k fk : String) (v : Vec)
    (hlen : MAX_CACHE_SIZE ≤ m.length) (hfk : firstKey m = some fk) (hne : fk ≠ "") :
    cacheSet m k v = mapSet (mapDelete m fk) k v := by
  rw [cacheSet, if_pos hlen]
  simp only [hfk]
  rw [if_neg hne]

theorem cacheSet_at_capacity_empty_first (m : CacheMap) (k : String) (v : Vec)
    (hlen : MAX_CACHE_SIZE ≤ m.length) (hfk : firstKey m = some "") :
    cacheSet m k v = mapSet m k v := by
  rw [cacheSet, if_pos hlen]
  simp only [hfk]
  simp

theorem putAll_append (m : CacheMap) (xs ys : List (String × Vec)) :
    putAll m (xs ++ ys) = putAll (putAll m xs) ys := by
  simp [putAll, List.foldl_append]

theorem putAll_singleton (m : CacheMap) (p : String × Vec) :
    putAll m [p] = cacheSet m p.1 p.2 := by
  simp [putAll]

-- Filling an under-capacity cache with fresh keys appends them in order

theorem putAll_below (ps : List (String × Vec)) :
    ∀ m : CacheMap, m.length + ps.length ≤ MAX_CACHE_SIZE →
      (∀ p ∈ ps, mapHas m p.1 = false) → (ps.map Prod.fst).Nodup →
      putAll m ps = m ++ ps := by
  induction ps with
  | nil =>
    intro m _ _ _
    simp [putAll]
  | cons p rest ih =>
    intro m hlen habs hnd
    have hmlt : m.length < MAX_CACHE_SIZE := by
      simp [List.length_cons] at hlen
      omega
    have hstep : cacheSet m p.1 p.2 = m ++ [p] := by
      rw [cacheSet, if_neg (Nat.not_le.mpr hmlt)]
      exact mapSet_absent m p.1 p.2 (habs p (List.mem_cons_self p rest))
    have hrec : putAll (m ++ [p]) rest = (m ++ [p]) ++ rest := by
      refine ih (m ++ [p]) ?_ ?_ ?_
      · simp [List.length_cons] at hlen ⊢
        omega
      · intro q hq
        rw [mapHas_append]
        have h1 : mapHas m q.1 = false := habs q (List.mem_cons_of_mem p hq)
        have h2 : mapHas [p] q.1 = false := by
          rw [mapHas_false_iff]
          simp only [List.map_cons, List.map_nil, List.mem_singleton]
          intro hq1
          rw [List.map_cons] at hnd
          have := (List.nodup_cons.mp hnd).1
          exact this (hq1 ▸ List.mem_map_of_mem Prod.fst hq)
        simp [h1, h2]
      · exact (List.nodup_cons.mp (by rwa [List.map_cons] at hnd)).2
    calc putAll m (p :: rest) = putAll (cacheSet m p.1 p.2) rest := by
          simp [putAll]
      _ = putAll (m ++ [p]) rest := by rw [hstep]
      _ = (m ++ [p]) ++ rest := hrec
      _ = m ++ (p :: rest) := by simp

-- Claim C1 and C2 results about the cache component

/-- C1 (failing evaluation): the capacity invariant is violated by the code.
Starting from the empty cache, putting the empty-string key first and then
5000 distinct nonempty keys leaves the cache with 5001 entries, exceeding
`MAX_CACHE_SIZE = 5000`: at capacity the eviction guard reads the oldest key
and skips deletion when that key is the empty string (falsy in JavaScript). -/
theorem capacity_overflow_on_empty_key :
    (putAll [] (("", []) :: fullCache 5000)).length = MAX_CACHE_SIZE + 1 := by
  have h1 : fullCache 5000 = fullCache 4999 ++ [(natKey 5000, [])] := fullCache_succ 4999
  rw [h1, ← List.cons_append, putAll_append, putAll_singleton]
  have hA : putAll [] (("", ([] : Vec)) :: fullCache 4999) = ("", []) :: fullCache 4999 := by
    refine putAll_below _ [] ?_ ?_ ?_
    · simp [fullCache_length, MAX_CACHE_SIZE]
    · intro p _
      rfl
    · rw [List.map_cons]
      exact List.nodup_cons.mpr ⟨empty_not_mem_fullCache 4999, fullCache_keys_nodup 4999⟩
  rw [hA]
  have hlenA : (("", ([] : Vec)) :: fullCache 4999).length = 5000 := by
    simp [fullCache_length]
  rw [cacheSet_at_capacity_empty_first (("", []) :: fullCache 4999) (natKey 5000) []
      (by rw [hlenA]; norm_num [MAX_CACHE_SIZE]) (by simp [firstKey])]
  have habs : mapHas (("", ([] : Vec)) :: fullCache 4999) (natKey 5000) = false := by
    rw [mapHas_false_iff, List.map_cons]
    intro hmem
    rcases List.mem_cons.mp hmem with h | h
    · exact natKey_succ_ne_empty 4999 h
    · exact natKey_not_mem_fullCache 4999 5000 (by omega) h
  rw [mapSet_absent _ _ _ habs]
  simp [fullCache_length, MAX_CACHE_SIZE]

/-- C2 (counterexample): overwriting a key that is already present does evict an
entry when the cache is at capacity.  In the 5000-entry cache with keys
`natKey 1, …, natKey 5000`, the key `natKey 2` is present, yet `cacheSet` on it
changes the entry count (the oldest entry `natKey 1` is evicted), refuting
"overwriting an already-present key never evicts any entry". -/
theorem overwrite_at_capacity_evicts :
    mapHas (fullCache 5000) (natKey 2) = true ∧
    (cacheSet (fullCache 5000) (natKey 2) [7]).length ≠ (fullCache 5000).length := by
  have hhas2 : mapHas (fullCache 5000) (natKey 2) = true :=
    (mapHas_true_iff _ _).mpr (natKey_mem_fullCache 5000 2 (by omega) (by omega))
  have hhas1 : mapHas (fullCache 5000) (natKey 1) = true :=
    (mapHas_true_iff _ _).mpr (natKey_mem_fullCache 5000 1 (by omega) (by omega))
  refine ⟨hhas2, ?_⟩
  rw [cacheSet_at_capacity (fullCache 5000) (natKey 2) (natKey 1) [7]
      (by rw [fullCache_length]; norm_num [MAX_CACHE_SIZE]) (fullCache_head 4999)
      (natKey_succ_ne_empty 0)]
  have hne21 : natKey 2 ≠ natKey 1 := by
    intro h
    have := natKey_injective h
    omega
  have hhas2' : mapHas (mapDelete (fullCache 5000) (natKey 1)) (natKey 2) = true := by
    rw [mapHas_mapDelete_ne _ _ _ hne21]
    exact hhas2
  have hdel := mapDelete_length_of_has _ _ hhas1
  rw [mapSet_present_length _ _ _ hhas2', fullCache_length] at *
  omega

/-- C2 (amended): `cacheSet` never evicts when the cache is below capacity, and
overwriting a present key with `mapSet` preserves the key order; but whenever the
cache is at capacity and the oldest key is a nonempty string, `cacheSet` first
evicts the oldest entry — whether or not the written key is already present. -/
theorem cacheSet_eviction_characterization :
    (∀ (m : CacheMap) (k : String) (v : Vec), m.length < MAX_CACHE_SIZE →
        cacheSet m k v = mapSet m k v) ∧
    (∀ (m : CacheMap) (k : String) (v : Vec), mapHas m k = true →
        (mapSet m k v).map Prod.fst = m.map Prod.fst) ∧
    (∀ (m : CacheMap) (k fk : String) (v : Vec),
        MAX_CACHE_SIZE ≤ m.length → firstKey m = some fk → fk ≠ "" →
        cacheSet m k v = mapSet (mapDelete m fk) k v) :=
  ⟨cacheSet_below_capacity, mapSet_present_keys, cacheSet_at_capacity⟩

/-- Witness for the amended C2 at concrete inputs: a one-entry cache is below
capacity, so writing a fresh key is a plain `mapSet`; and overwriting a present
key keeps the key sequence unchanged. -/
theorem cacheSet_eviction_characterization_witness :
    cacheSet [("a", [1])] "b" [2] = mapSet [("a", [1])] "b" [2] ∧
    (mapSet [("a", [1]), ("b", [2])] "a" [3]).map Prod.fst =
      [("a", [1]), ("b", [2])].map Prod.fst :=
  ⟨cacheSet_eviction_characterization.1 _ _ _ (by decide),
   cacheSet_eviction_characterization.2.1 _ _ _ (by decide)⟩

-- How generateEmbedding behaves on a hit, a successful miss and a failed miss

theorem generateEmbedding_hit (gw : String → Except String Vec) (s : St) (t : String)
    (v : Vec) (hget : mapGet s.cache (getCacheKey t) = some v) :
    generateEmbedding gw s t = (.ok v, { s with cacheHits := s.cacheHits + 1 }) := by
  have hhas : mapHas s.cache (getCacheKey t) = true := mapHas_of_mapGet_some _ _ _ hget
  simp [generateEmbedding, cacheGet, hhas, hget]

theorem generateEmbedding_miss_ok (gw : String → Except String Vec) (s : St)
    (t : String) (v : Vec) (hmiss : mapHas s.cache (getCacheKey t) = false)
    (hok : gw t = .ok v) :
    generateEmbedding gw s t =
      (.ok v, { s with gwCalls := s.gwCalls + 1,
                       cache := cacheSet s.cache (getCacheKey t) v }) := by
  simp [generateEmbedding, cacheGet, hmiss, hok]

theorem generateEmbedding_miss_error (gw : String → Except String Vec) (s : St)
    (t : String) (e : String) (hmiss : mapHas s.cache (getCacheKey t) = false)
    (herr : gw t = .error e) :
    generateEmbedding gw s t = (.error e, { s with gwCalls := s.gwCalls + 1 }) := by
  simp [generateEmbedding, cacheGet, hmiss, herr]

/-- After a successful call for `t`, the text's key holds the returned vector. -/
theorem mapGet_after_generate (gw : String → Except String Vec) (s s1 : St)
    (t : String) (v : Vec) (h : generateEmbedding gw s t = (.ok v, s1)) :
    mapGet s1.cache (getCacheKey t) = some v := by
  by_cases hm : mapHas s.cache (getCacheKey t) = true
  · obtain ⟨w, hw⟩ := mapGet_isSome_of_mapHas _ _ hm
    rw [generateEmbedding_hit gw s t w hw] at h
    have h1 := congrArg Prod.fst h
    have h2 := congrArg Prod.snd h
    simp at h1 h2
    subst h2
    subst h1
    exact hw
  · rw [Bool.not_eq_true] at hm
    cases hgw : gw t with
    | ok emb =>
      rw [generateEmbedding_miss_ok gw s t emb hm hgw] at h
      have h1 := congrArg Prod.fst h
      have h2 := congrArg Prod.snd h
      simp at h1 h2
      subst h2
      subst h1
      exact mapGet_cacheSet_self _ _ _
    | error e =>
      rw [generateEmbedding_miss_error gw s t e hm hgw] at h
      have h1 := congrArg Prod.fst h
      simp at h1

/-- After a successful call for `t`, any text with the same cache key is a hit
that returns the same vector and only bumps the hit counter. -/
theorem hit_after_success (gw : String → Except String Vec) (s s1 : St) (t t' : String)
    (v : Vec) (hk : getCacheKey t' = getCacheKey t)
    (h : generateEmbedding gw s t = (.ok v, s1)) :
    generateEmbedding gw s1 t' = (.ok v, { s1 with cacheHits := s1.cacheHits + 1 }) := by
  have hget : mapGet s1.cache (getCacheKey t') = some v := by
    rw [hk]
    exact mapGet_after_generate gw s s1 t v h
  exact generateEmbedding_hit gw s1 t' v hget

/-- C3: with a deterministic model, calling `generateEmbedding` twice in
succession on the same text returns bit-identical vectors; the second call is a
cache hit that increments the hit counter by one and leaves everything else —
including the gateway-invocation count — unchanged. -/
theorem resolveOne_idempotent (gw : String → Except String Vec) (s s1 : St) (t : String)
    (v : Vec) (h : generateEmbedding gw s t = (.ok v, s1)) :
    generateEmbedding gw s1 t = (.ok v, { s1 with cacheHits := s1.cacheHits + 1 }) :=
  hit_after_success gw s s1 t t v rfl h

/-- Witness for C3: embedding the text hi, then asking again, hits the cache. -/
theorem resolveOne_idempotent_witness :
    generateEmbedding gwConst
        { cache := [("hi", [1])], requestCount := 0, cacheHits := 0, gwCalls := 1 } "hi"
      = (.ok [1],
        { cache := [("hi", [1])], requestCount := 0, cacheHits := 1, gwCalls := 1 }) :=
  resolveOne_idempotent gwConst st0
    { cache := [("hi", [1])], requestCount := 0, cacheHits := 0, gwCalls := 1 } "hi" [1] rfl

/-- C4: two distinct texts sharing their first 300 characters share a cache key,
so after a completed call for the first, the second is a cache hit returning the
first's vector, with no gateway call. -/
theorem truncation_collision_hit (gw : String → Except String Vec) (s s1 : St)
    (t1 t2 : String) (v : Vec) (hne : t1 ≠ t2)
    (hpre : getCacheKey t2 = getCacheKey t1)
    (h : generateEmbedding gw s t1 = (.ok v, s1)) :
    generateEmbedding gw s1 t2 = (.ok v, { s1 with cacheHits := s1.cacheHits + 1 }) :=
  hit_after_success gw s s1 t1 t2 v hpre h

set_option maxRecDepth 8000 in
/-- Witness for C4: two distinct 301-character texts with the same first 300
characters; the second resolves from the first's cache entry. -/
theorem truncation_collision_hit_witness :
    generateEmbedding gwConst
        { cache := [(String.mk (List.replicate 300 'a'), [1])],
          requestCount := 0, cacheHits := 0, gwCalls := 1 } longC
      = (.ok [1],
        { cache := [(String.mk (List.replicate 300 'a'), [1])],
          requestCount := 0, cacheHits := 1, gwCalls := 1 }) :=
  truncation_collision_hit gwConst st0
    { cache := [(String.mk (List.replicate 300 'a'), [1])],
      requestCount := 0, cacheHits := 0, gwCalls := 1 }
    longB longC [1] (by decide) (by decide) rfl

/-- C5 (counterexample): the number 1 in the text field is not a string, yet the
request does not fail with the invalid-input condition: it passes the falsiness
check and the TypeError from `text.slice` surfaces as an internal error. -/
theorem nonstring_text_not_invalid :
    (postEmbed true gwConst st0 (JVal.num 1)).1 = EmbedResult.internalError TYPE_ERROR_MSG ∧
    (postEmbed true gwConst st0 (JVal.num 1)).1 ≠ EmbedResult.invalidInput :=
  ⟨rfl, by decide⟩

/-- C5 (amended): with the model ready, the single-embed operation fails with
InvalidInput exactly when the text field is falsy (absent, null, empty string,
zero or false); a truthy non-string fails with an internal error instead; and in
every case that is invalid or non-string the whole state — cache, counters,
gateway-call count — is unchanged. -/
theorem postEmbed_invalid_iff_falsy (gw : String → Except String Vec) (s : St)
    (text : JVal) :
    ((postEmbed true gw s text).1 = EmbedResult.invalidInput ↔ text.truthy = false) ∧
    (((postEmbed true gw s text).1 = EmbedResult.invalidInput ∨
        (∀ u : String, text ≠ JVal.str u)) →
      (postEmbed true gw s text).2 = s) := by
  cases text with
  | undef => simp [postEmbed, JVal.truthy]
  | nullv => simp [postEmbed, JVal.truthy]
  | num n =>
    by_cases hn : n = 0
    · simp [postEmbed, JVal.truthy, hn]
    · simp [postEmbed, JVal.truthy, hn]
  | boolean b =>
    cases b
    · simp [postEmbed, JVal.truthy]
    · simp [postEmbed, JVal.truthy]
  | arr l => simp [postEmbed, JVal.truthy]
  | str u =>
    by_cases hu : u = ""
    · subst hu
      simp [postEmbed, JVal.truthy]
    · rcases hr : generateEmbedding gw { s with requestCount := s.requestCount + 1 } u
        with ⟨res, s2⟩
      cases res with
      | ok emb =>
        constructor
        · simp [postEmbed, JVal.truthy, hu, hr]
        · intro hcase
          rcases hcase with hcase | hcase
          · simp [postEmbed, JVal.truthy, hu, hr] at hcase
          · exact absurd rfl (hcase u)
      | error e =>
        constructor
        · simp [postEmbed, JVal.truthy, hu, hr]
        · intro hcase
          rcases hcase with hcase | hcase
          · simp [postEmbed, JVal.truthy, hu, hr] at hcase
          · exact absurd rfl (hcase u)

/-- Witness for the amended C5: an absent text field is rejected with
InvalidInput and the state is untouched. -/
theorem postEmbed_invalid_iff_falsy_witness :
    (postEmbed true gwConst st0 JVal.undef).1 = EmbedResult.invalidInput ∧
    (postEmbed true gwConst st0 JVal.undef).2 = st0 :=
  ⟨(postEmbed_invalid_iff_falsy gwConst st0 JVal.undef).1.mpr (by decide),
   (postEmbed_invalid_iff_falsy gwConst st0 JVal.undef).2
     (Or.inr (fun u h => JVal.noConfusion h))⟩

/-- C6 (counterexample): the empty array is accepted by the batch operation — it
does not fail with the invalid-input condition (it succeeds with count 0). -/
theorem empty_batch_not_invalid :
    (postBatch true gwConst st0 (JVal.arr [])).1 ≠ BatchResult.invalidInput := by
  decide

theorem runBatch_not_invalid (gw : String → Except String Vec) (s : St) (ts : List JVal) :
    (runBatch gw s ts).1 ≠ BatchResult.invalidInput := by
  by_cases hall : ts.all JVal.isStr = true
  · unfold runBatch
    rw [if_pos hall]
    dsimp only
    split <;> simp
  · unfold runBatch
    rw [if_neg hall]
    simp

/-- C6 (amended): with the model ready, the batch operation fails with
InvalidInput exactly when the input is not an array (the empty array is
accepted), and in that case the state — including the request counter — is
unchanged and the gateway is not called. -/
theorem postBatch_invalid_iff_not_array (gw : String → Except String Vec) (s : St)
    (texts : JVal) :
    ((postBatch true gw s texts).1 = BatchResult.invalidInput ↔
        ∀ ts, texts ≠ JVal.arr ts) ∧
    ((∀ ts, texts ≠ JVal.arr ts) → postBatch true gw s texts = (BatchResult.invalidInput, s)) := by
  cases texts with
  | arr l =>
    have hni : (postBatch true gw s (JVal.arr l)).1 ≠ BatchResult.invalidInput :=
      runBatch_not_invalid gw s l
    constructor
    · constructor
      · intro hres
        exact (hni hres).elim
      · intro hnot
        exact absurd rfl (hnot l)
    · intro hnot
      exact absurd rfl (hnot l)
  | undef => simp [postBatch]
  | nullv => simp [postBatch]
  | num n => simp [postBatch]
  | boolean b => simp [postBatch]
  | str u => simp [postBatch]

/-- Witness for the amended C6: a number as the texts field is rejected with
InvalidInput and the state is unchanged. -/
theorem postBatch_invalid_iff_not_array_witness :
    postBatch true gwConst st0 (JVal.num 3) = (BatchResult.invalidInput, st0) :=
  (postBatch_invalid_iff_not_array gwConst st0 (JVal.num 3)).2
    (fun ts h => JVal.noConfusion h)

/-- C7: with the model ready, the empty batch succeeds with an empty embedding
sequence, count 0 and dimensions 0, and the state — cache, counters,
gateway-call count — is unchanged. -/
theorem postBatch_empty_ok (gw : String → Except String Vec) (s : St) :
    postBatch true gw s (JVal.arr []) = (BatchResult.ok [] 0 0, s) := by
  cases s
  simp [postBatch, runBatch, phaseA, phaseB, firstErrorMsg, okVecs, dimsOf]

-- Counter accounting across the handlers

theorem generateEmbedding_requestCount (gw : String → Except String Vec) (s : St)
    (t : String) : ((generateEmbedding gw s t).2).requestCount = s.requestCount := by
  by_cases hm : mapHas s.cache (getCacheKey t) = true
  · obtain ⟨w, hw⟩ := mapGet_isSome_of_mapHas _ _ hm
    rw [generateEmbedding_hit gw s t w hw]
  · rw [Bool.not_eq_true] at hm
    cases hgw : gw t with
    | ok emb => rw [generateEmbedding_miss_ok gw s t emb hm hgw]
    | error e => rw [generateEmbedding_miss_error gw s t e hm hgw]

theorem cacheGet_requestCount (s : St) (k : String) :
    ((cacheGet s k).2).requestCount = s.requestCount := by
  by_cases hm : mapHas s.cache k = true
  · simp [cacheGet, hm]
  · rw [Bool.not_eq_true] at hm
    simp [cacheGet, hm]

theorem phaseA_requestCount (ts : List String) :
    ∀ s : St, ((phaseA s ts).2).requestCount = s.requestCount := by
  induction ts with
  | nil => intro s; rfl
  | cons t rest ih =>
    intro s
    by_cases hm : mapHas s.cache (getCacheKey t) = true
    · obtain ⟨w, hw⟩ := mapGet_isSome_of_mapHas _ _ hm
      simp [phaseA, cacheGet, hm, hw, ih]
    · rw [Bool.not_eq_true] at hm
      simp [phaseA, cacheGet, hm, ih]

theorem phaseB_requestCount (gw : String → Except String Vec) (items : List Item) :
    ∀ s : St, ((phaseB gw s items).2).requestCount = s.requestCount := by
  induction items with
  | nil => intro s; rfl
  | cons it rest ih =>
    intro s
    cases it with
    | hit v => simp [phaseB, ih]
    | miss t k =>
      cases hgw : gw t with
      | ok v => simp [phaseB, hgw, ih]
      | error e => simp [phaseB, hgw, ih]

theorem length_filterMap_asStr (ts : List JVal) (hall : ts.all JVal.isStr = true) :
    (ts.filterMap JVal.asStr).length = ts.length := by
  induction ts with
  | nil => rfl
  | cons v rest ih =>
    rw [List.all_cons, Bool.and_eq_true] at hall
    cases v with
    | str u => simp [JVal.asStr, ih hall.2]
    | undef => simp [JVal.isStr] at hall
    | nullv => simp [JVal.isStr] at hall
    | num n => simp [JVal.isStr] at hall
    | boolean b => simp [JVal.isStr] at hall
    | arr l => simp [JVal.isStr] at hall

theorem postBatch_requestCount (gw : String → Except String Vec) (s : St)
    (ts : List JVal) (hall : ts.all JVal.isStr = true) :
    ((postBatch true gw s (JVal.arr ts)).2).requestCount = s.requestCount + ts.length := by
  have hlen := length_filterMap_asStr ts hall
  show ((runBatch gw s ts).2).requestCount = s.requestCount + ts.length
  unfold runBatch
  rw [if_pos hall]
  dsimp only
  split <;> simp [phaseB_requestCount, phaseA_requestCount, hlen]

theorem postEmbed_requestCount (gw : String → Except String Vec) (s : St)
    (t : String) (ht : t ≠ "") :
    ((postEmbed true gw s (JVal.str t)).2).requestCount = s.requestCount + 1 := by
  rcases hr : generateEmbedding gw { s with requestCount := s.requestCount + 1 } t
    with ⟨res, s2⟩
  have hrc : s2.requestCount = s.requestCount + 1 := by
    have := generateEmbedding_requestCount gw { s with requestCount := s.requestCount + 1 } t
    rw [hr] at this
    exact this
  cases res with
  | ok emb => simp [postEmbed, JVal.truthy, ht, hr, hrc]
  | error e => simp [postEmbed, JVal.truthy, ht, hr, hrc]

/-- C8: whenever the gateway call for a text fails, no cache entry is created or
modified — the cache is exactly what it was — and the single-embed operation
surfaces an internal error carrying the underlying message. -/
theorem failed_generation_not_cached (gw : String → Except String Vec) (s : St)
    (t : String) (e : String) (ht : t ≠ "")
    (hmiss : mapHas s.cache (getCacheKey t) = false) (herr : gw t = .error e) :
    (postEmbed true gw s (JVal.str t)).1 = EmbedResult.internalError e ∧
    ((postEmbed true gw s (JVal.str t)).2).cache = s.cache := by
  have hgen := generateEmbedding_miss_error gw { s with requestCount := s.requestCount + 1 }
    t e hmiss herr
  constructor
  · simp [postEmbed, JVal.truthy, ht, hgen]
  · simp [postEmbed, JVal.truthy, ht, hgen]

/-- Witness for C8: a failing gateway on the uncached text x yields an internal
error with the gateway's message and leaves the (empty) cache untouched. -/
theorem failed_generation_not_cached_witness :
    (postEmbed true gwFail st0 (JVal.str "x")).1 = EmbedResult.internalError "model error" ∧
    ((postEmbed true gwFail st0 (JVal.str "x")).2).cache = st0.cache :=
  failed_generation_not_cached gwFail st0 "x" "model error" (by decide) rfl rfl

/-- C9: an accepted single-embed request increments the request counter by
exactly one and an accepted batch of N texts increments it by exactly N,
regardless of hits, misses or gateway failures; a cache hit increments the hit
counter by exactly one inside the cache's get, and a miss leaves the state
unchanged there. -/
theorem request_counter_accounting (gw : String → Except String Vec) (s : St) :
    (∀ t : String, t ≠ "" →
        ((postEmbed true gw s (JVal.str t)).2).requestCount = s.requestCount + 1) ∧
    (∀ ts : List JVal, ts.all JVal.isStr = true →
        ((postBatch true gw s (JVal.arr ts)).2).requestCount = s.requestCount + ts.length) ∧
    (∀ (k : String) (v : Vec), mapGet s.cache k = some v →
        cacheGet s k = (some v, { s with cacheHits := s.cacheHits + 1 })) ∧
    (∀ k : String, mapHas s.cache k = false → cacheGet s k = (none, s)) := by
  refine ⟨fun t ht => postEmbed_requestCount gw s t ht,
          fun ts hall => postBatch_requestCount gw s ts hall, ?_, ?_⟩
  · intro k v hget
    have hhas := mapHas_of_mapGet_some _ _ _ hget
    simp [cacheGet, hhas, hget]
  · intro k hmiss
    simp [cacheGet, hmiss]

/-- Witness for C9: a single request counts one, a two-text batch counts two,
and a hit bumps the hit counter inside `cacheGet`. -/
theorem request_counter_accounting_witness :
    ((postEmbed true gwConst st0 (JVal.str "q")).2).requestCount = st0.requestCount + 1 ∧
    ((postBatch true gwConst st0 (JVal.arr [JVal.str "q", JVal.str "r"])).2).requestCount
      = st0.requestCount + 2 ∧
    cacheGet { cache := [("k", [5])], requestCount := 0, cacheHits := 0, gwCalls := 0 } "k"
      = (some [5], { cache := [("k", [5])], requestCount := 0, cacheHits := 1, gwCalls := 0 }) :=
  ⟨(request_counter_accounting gwConst st0).1 "q" (by decide),
   (request_counter_accounting gwConst st0).2.1 [JVal.str "q", JVal.str "r"] (by decide),
   (request_counter_accounting gwConst
      { cache := [("k", [5])], requestCount := 0, cacheHits := 0, gwCalls := 0 }).2.2.1
      "k" [5] rfl⟩

/-- C10: the request counter is incremented before the gateway is consulted, so
a request whose generation fails still counts: the failed single request ends
with the request counter and gateway-call counter each up by one while the hit
counter and the cache are unchanged; and a batch of N strings adds N to the
request counter no matter how many gateway calls fail. -/
theorem failed_request_still_counted (gw : String → Except String Vec) (s : St)
    (t : String) (e : String) (ht : t ≠ "")
    (hmiss : mapHas s.cache (getCacheKey t) = false) (herr : gw t = .error e) :
    postEmbed true gw s (JVal.str t) =
      (EmbedResult.internalError e,
        { s with requestCount := s.requestCount + 1, gwCalls := s.gwCalls + 1 }) ∧
    (∀ ts : List JVal, ts.all JVal.isStr = true →
        ((postBatch true gw s (JVal.arr ts)).2).requestCount = s.requestCount + ts.length) := by
  have hgen := generateEmbedding_miss_error gw { s with requestCount := s.requestCount + 1 }
    t e hmiss herr
  exact ⟨by simp [postEmbed, JVal.truthy, ht, hgen],
         fun ts hall => postBatch_requestCount gw s ts hall⟩

/-- Witness for C10: with an always-failing gateway, the request on text x is
counted (request counter 1, gateway-call counter 1) while the hit counter and
the cache stay untouched, and the error is surfaced. -/
theorem failed_request_still_counted_witness :
    postEmbed true gwFail st0 (JVal.str "x") =
      (EmbedResult.internalError "model error",
        { cache := [], requestCount := 1, cacheHits := 0, gwCalls := 1 }) :=
  (failed_request_still_counted gwFail st0 "x" "model error" (by decide) rfl rfl).1
